import Mathlib

/-!
Verification of the FipeOLX matching/estimation/ranking core
(src/streamlit_app.py) against its natural-language specification.

The Python source is shallowly embedded: every function is translated to an
executable Lean definition over `ℤ`/`ℚ`/`String`/`Option`/`Except`.  Python
exceptions are modelled with `Except` (an `Except.error` value marks an
uncaught exception escaping the function), `None` with `Option.none`, and
Python floats are idealised as exact rationals (`ℚ`), with `Option.none`
standing for the non-finite values.
-/

namespace FipeOLX

/-- ASCII lowercasing, character by character, as Python `str.lower` acts on
the ASCII portion of the text handled here. -/
def pyLower (s : String) : String :=
  String.mk (s.toList.map Char.toLower)

/-- The second character list is a leading segment of the first
(`str.startswith` at one position). -/
def subAt : List Char → List Char → Bool
  | _, [] => true
  | [], _ :: _ => false
  | a :: as, b :: bs => a == b && subAt as bs

/-- Python's substring test `needle in hay`, over character lists. -/
def hasSub : List Char → List Char → Bool
  | [], nd => nd.isEmpty
  | c :: cs, nd => subAt (c :: cs) nd || hasSub cs nd

/-- Python `str.replace` (all non-overlapping occurrences, scanned left to
right), written with a fuel argument that bounds the recursion; one unit of
fuel is spent per character of text consumed, so `length + 1` fuel always
suffices. -/
def replaceFuel (nd rp : List Char) : Nat → List Char → List Char
  | 0, hay => hay
  | _ + 1, [] => []
  | f + 1, c :: cs =>
    if !nd.isEmpty && subAt (c :: cs) nd then
      rp ++ replaceFuel nd rp f (List.drop (nd.length - 1) cs)
    else
      c :: replaceFuel nd rp f cs

/-- Python `str.replace` on strings. -/
def pyReplace (s pat rp : String) : String :=
  String.mk (replaceFuel pat.toList rp.toList (s.toList.length + 1) s.toList)

/-- Prepend a digit character to the run structure of the rest of the list:
it extends the first run when the next character is also a digit, and starts
a fresh run otherwise. -/
def consRun (c : Char) (next : Option Char) (rs : List (List Char)) : List (List Char) :=
  match next, rs with
  | some d, r :: rest => if d.isDigit then (c :: r) :: rest else [c] :: r :: rest
  | _, _ => [c] :: rs

/-- The maximal runs of decimal digits of a character list, in order — what
`re.findall` returns for the pattern matching one-or-more digits. -/
def digitRuns : List Char → List (List Char)
  | [] => []
  | c :: cs => if c.isDigit then consRun c cs.head? (digitRuns cs) else digitRuns cs

/-- Numeric value of an all-digits character list, as Python `int` reads it. -/
def natOfDigits (l : List Char) : ℕ :=
  l.foldl (fun a c => a * 10 + (c.toNat - 48)) 0

/-- Python `int()` on a rational: truncation toward zero. -/
def pyTrunc (q : ℚ) : ℤ :=
  q.num.tdiv (q.den : ℤ)

/-- A dynamically typed Python value as `parse_preco` can receive one: `None`,
an `int`, a `float` (idealised as an exact rational, `Option.none` standing
for the non-finite values), a `str`, or a value of any other type such as a
`list` or `dict` — one that has no `replace` method. -/
inductive PyVal where
  | none
  | int (n : ℤ)
  | float (q : Option ℚ)
  | str (s : String)
  | other
deriving DecidableEq

/-- The cleaning chain of `parse_preco` on a string: strip `R$`, spaces,
dots and commas, in that order. -/
def cleanPreco (s : String) : String :=
  pyReplace (pyReplace (pyReplace (pyReplace s "R$" "") " " "") "." "") "," ""

/-- The string branch of `parse_preco`: all digit runs of the cleaned text
are concatenated and read as one integer; no digit run means `None`. -/
def parsePrecoStr (s : String) : Option ℤ :=
  if (digitRuns (cleanPreco s).toList).isEmpty then Option.none
  else some ((natOfDigits (digitRuns (cleanPreco s).toList).flatten : ℤ))

/-- `parse_preco` (src/streamlit_app.py:73-88).  `None` returns `None`;
numeric input is converted with `int(float(·))`, whose failure on non-finite
floats is caught; a string is cleaned of `R$`, spaces, dots and commas and its
digit runs are concatenated into one integer (`None` if there is no digit);
any other type reaches `texto.replace` and raises `AttributeError`, modelled
as `Except.error`. -/
def parse_preco : PyVal → Except String (Option ℤ)
  | .none => .ok Option.none
  | .int n => .ok (some n)
  | .float Option.none => .ok Option.none
  | .float (some q) => .ok (some (pyTrunc q))
  | .str s => .ok (parsePrecoStr s)
  | .other => .error "AttributeError"

/-- Every character of a replacement by the empty string comes from the
original text: deleting occurrences of a pattern introduces no character. -/
theorem mem_replaceFuel_empty (nd : List Char) :
    ∀ (f : Nat) (hay : List Char) (c : Char), c ∈ replaceFuel nd [] f hay → c ∈ hay := by
  intro f
  induction f with
  | zero => intro hay c h; rw [replaceFuel] at h; exact h
  | succ f ih =>
    intro hay c h
    match hay with
    | [] => rw [replaceFuel] at h; exact absurd h (List.not_mem_nil c)
    | a :: as =>
      rw [replaceFuel] at h
      by_cases hc : (!nd.isEmpty && subAt (a :: as) nd) = true
      · rw [if_pos hc] at h
        simp only [List.nil_append] at h
        have := ih _ _ h
        exact List.mem_cons_of_mem _ (List.mem_of_mem_drop this)
      · rw [if_neg hc] at h
        rcases List.mem_cons.mp h with h | h
        · exact h ▸ List.mem_cons_self _ _
        · exact List.mem_cons_of_mem _ (ih _ _ h)

/-- If no character of the list is a digit, there are no digit runs. -/
theorem digitRuns_eq_nil {l : List Char} (h : ∀ c ∈ l, ¬ c.isDigit) :
    digitRuns l = [] := by
  induction l with
  | nil => rfl
  | cons c cs ih =>
    rw [digitRuns, if_neg (h c (List.mem_cons_self _ _))]
    exact ih fun d hd => h d (List.mem_cons_of_mem _ hd)

/-- C2: evaluating the Currency Parser at the claim's inputs.  The decimal
fraction of `"32.000,50"` is concatenated into the integer part, giving
3200050 rather than the claimed round-half-up result 32001, while the
thousands-separated `"32.000"` parses to 32000 as the claim states. -/
theorem claim_C2 :
    parse_preco (.str "32.000,50") = .ok (some 3200050) ∧
    parse_preco (.str "32.000") = .ok (some 32000) := by
  constructor <;> rfl

/-- C9 counterexample: on an input of non-string, non-numeric type (such as a
list or dict pulled out of embedded JSON), `parse_preco` calls `.replace` on
it and raises `AttributeError` instead of returning a value, refuting "for
all inputs of any type, the Currency Parser never raises". -/
theorem claim_C9_counterexample :
    parse_preco .other = .error "AttributeError" := rfl

/-- C9 (amended): on its handled input types — `None`, numbers and strings —
`parse_preco` never raises and returns an integer or nothing; on a string
with no digit character it returns nothing. -/
theorem claim_C9 (v : PyVal) (hv : v ≠ .other) :
    (∃ r, parse_preco v = .ok r) ∧
    (∀ s, v = .str s → s.toList.all (fun c => !c.isDigit) = true →
      parse_preco v = .ok Option.none) := by
  constructor
  · match v with
    | .none => exact ⟨_, rfl⟩
    | .int n => exact ⟨_, rfl⟩
    | .float Option.none => exact ⟨_, rfl⟩
    | .float (some q) => exact ⟨_, rfl⟩
    | .str s => exact ⟨_, rfl⟩
    | .other => exact absurd rfl hv
  · intro s hs hnd
    subst hs
    have hnd' : ∀ c ∈ s.toList, ¬ c.isDigit := by
      intro c hc
      have := List.all_eq_true.mp hnd c hc
      simp at this
      simp [this]
    rw [parse_preco]
    rw [parsePrecoStr, if_pos]
    rw [List.isEmpty_iff]
    apply digitRuns_eq_nil
    intro c hc
    apply hnd'
    have h1 := mem_replaceFuel_empty ",".toList _ _ _ hc
    have h2 := mem_replaceFuel_empty ".".toList _ _ _ h1
    have h3 := mem_replaceFuel_empty " ".toList _ _ _ h2
    exact mem_replaceFuel_empty "R$".toList _ _ _ h3

/-- Witness for C9 at the concrete string `"abc"`. -/
theorem claim_C9_witness :
    (PyVal.str "abc" ≠ PyVal.other) ∧
    ((∃ r, parse_preco (.str "abc") = .ok r) ∧
      (∀ s, PyVal.str "abc" = .str s → s.toList.all (fun c => !c.isDigit) = true →
        parse_preco (.str "abc") = .ok Option.none)) :=
  ⟨by decide, claim_C9 (.str "abc") (by decide)⟩

/-! ### The ranking pipeline (src/streamlit_app.py:585-627) -/

/-- One row of the post-collection dataframe: title, numeric price, estimated
reference value (the `fipe_estimado` column, filled in before the margin
step), and ad url. -/
structure Row where
  titulo : Option String
  preco_num : Option ℤ
  fipe : Option ℚ
  url : String
deriving DecidableEq

/-- Lower endpoint of the price band: `max(0, int(budget - tol_preco))`
(line 592). -/
def priceMin (budget tol : ℚ) : ℤ :=
  max 0 (pyTrunc (budget - tol))

/-- Upper endpoint of the price band: `int(budget + tol_preco)` (line 592). -/
def priceMax (budget tol : ℚ) : ℤ :=
  pyTrunc (budget + tol)

/-- The row predicate of line 594: the price is present (`notna`) and
`between(min_p, max_p)` — a closed interval on both sides. -/
def pricePred (budget tol : ℚ) (r : Row) : Bool :=
  match r.preco_num with
  | some p => decide (priceMin budget tol ≤ p) && decide (p ≤ priceMax budget tol)
  | Option.none => false

/-- The price filter (lines 592-594): when `only_with_price` is set, rows
without a numeric price are dropped first; then the band-plus-`notna` filter
of line 594 is applied unconditionally. -/
def priceStep (budget tol : ℚ) (only_with_price : Bool) (rows : List Row) : List Row :=
  (if only_with_price then rows.filter (fun r => r.preco_num.isSome) else rows).filter
    (pricePred budget tol)

/-- The `margem_calc` column (lines 609-612): `fipe_estimado - preco_num`
when both are present, else `None`. -/
def margem (r : Row) : Option ℚ :=
  match r.fipe, r.preco_num with
  | some f, some p => some (f - (p : ℚ))
  | _, _ => Option.none

/-- The `mask_margem` predicate of line 615: the margin is present and lies
in `[margem_alvo - tol_margem, margem_alvo + tol_margem]`, both sides
included. -/
def margemBand (alvo tolm : ℚ) (r : Row) : Bool :=
  match margem r with
  | some m => decide (alvo - tolm ≤ m) && decide (m ≤ alvo + tolm)
  | Option.none => false

/-- The margin filter and its fallback (lines 614-620): keep the rows passing
`mask_margem`; if none does, fall back to the rows with a fipe estimate. -/
def marginStep (alvo tolm : ℚ) (rows : List Row) : List Row :=
  if (rows.filter (margemBand alvo tolm)).isEmpty then
    rows.filter (fun r => r.fipe.isSome)
  else
    rows.filter (margemBand alvo tolm)

/-- The `delta_margem` column (line 625): `(margem_calc - margem_alvo).abs()`,
absent (`NaN`) when the margin is absent. -/
def deltaMargem (alvo : ℚ) (r : Row) : Option ℚ :=
  (margem r).map (fun m => |m - alvo|)

/-- The `delta_preco` column (line 626): `(preco_num - budget).abs()`, absent
when the price is absent. -/
def deltaPreco (budget : ℚ) (r : Row) : Option ℚ :=
  r.preco_num.map (fun p => |(p : ℚ) - budget|)

/-- Comparison of possibly-missing sort keys: a missing value (pandas `NaN`)
sorts after every present value (`na_position='last'`). -/
def optLe : Option ℚ → Option ℚ → Bool
  | Option.none, Option.none => true
  | Option.none, some _ => false
  | some _, Option.none => true
  | some a, some b => decide (a ≤ b)

/-- Lexicographic combination of two boolean comparisons on a pair: the
second component decides ties of the first. -/
def lexIf {κ₁ κ₂ : Type} [DecidableEq κ₁] (le1 : κ₁ → κ₁ → Bool) (le2 : κ₂ → κ₂ → Bool)
    (x y : κ₁ × κ₂) : Bool :=
  if x.1 = y.1 then le2 x.2 y.2 else le1 x.1 y.1

/-- The sort key of line 627: the pair of the `delta_margem` and
`delta_preco` columns. -/
def sortKey (budget alvo : ℚ) (r : Row) : Option ℚ × Option ℚ :=
  (deltaMargem alvo r, deltaPreco budget r)

/-- Row comparison realised by
`sort_values(['delta_margem', 'delta_preco'])`: lexicographic on the two
distance columns, missing values last. -/
def keyLe : Option ℚ × Option ℚ → Option ℚ × Option ℚ → Bool :=
  lexIf optLe optLe

/-- Line 627: a stable ascending sort of the surviving rows on
`(delta_margem, delta_preco)` — pandas sorts on several columns with a stable
lexicographic sort. -/
def sortStep (budget alvo : ℚ) (rows : List Row) : List Row :=
  rows.insertionSort (fun a b => keyLe (sortKey budget alvo a) (sortKey budget alvo b) = true)

/-- The filtered dataframe `df_sel` fed into the sort: price filter (with the
fipe estimates already attached to the rows), then margin filter with
fallback. -/
def df_sel (budget alvo tolp tolm : ℚ) (ow : Bool) (rows : List Row) : List Row :=
  marginStep alvo tolm (priceStep budget tolp ow rows)

/-- The ranked result shown to the user (line 627): `df_sel` sorted. -/
def resultado (budget alvo tolp tolm : ℚ) (ow : Bool) (rows : List Row) : List Row :=
  sortStep budget alvo (df_sel budget alvo tolp tolm ow rows)

/-- Modelled from the spec's words for C3: margin distance with the sentinel
`10^9` replacing an undefined margin (and likewise for an undefined price,
which does not occur among survivors), paired with price distance. -/
def claimKey (budget alvo : ℚ) (r : Row) : ℚ × ℚ :=
  ((match margem r with
    | some m => |m - alvo|
    | Option.none => 10 ^ 9),
   (match r.preco_num with
    | some p => |(p : ℚ) - budget|
    | Option.none => 10 ^ 9))

/-- Modelled from the spec's words for C3: ascending lexicographic comparison
of the sentinel keys. -/
def pairLe : ℚ × ℚ → ℚ × ℚ → Bool :=
  lexIf (fun a b => decide (a ≤ b)) (fun a b => decide (a ≤ b))

/-- Bound used by C3's sentinel clause: every defined margin of the row is
within `10^9` of the target ("any realistic margin"). -/
def margemBound (alvo : ℚ) (r : Row) : Bool :=
  (margem r).all (fun m => decide (|m - alvo| < 10 ^ 9))

/-! ### Order facts about the comparison functions -/

theorem optLe_refl (x : Option ℚ) : optLe x x = true := by
  cases x <;> simp [optLe]

theorem optLe_total (x y : Option ℚ) : optLe x y = true ∨ optLe y x = true := by
  cases x <;> cases y <;> simp [optLe]
  exact le_total _ _

theorem optLe_trans {x y z : Option ℚ} (h1 : optLe x y = true) (h2 : optLe y z = true) :
    optLe x z = true := by
  cases x <;> cases y <;> cases z <;> simp [optLe] at *
  exact le_trans h1 h2

theorem optLe_antisymm {x y : Option ℚ} (h1 : optLe x y = true) (h2 : optLe y x = true) :
    x = y := by
  cases x <;> cases y <;> simp [optLe] at *
  exact le_antisymm h1 h2

section LexIf

variable {κ₁ κ₂ : Type} [DecidableEq κ₁] {le1 : κ₁ → κ₁ → Bool} {le2 : κ₂ → κ₂ → Bool}

theorem lexIf_refl (h2 : ∀ k, le2 k k = true) (x : κ₁ × κ₂) : lexIf le1 le2 x x = true := by
  simp [lexIf, h2]

theorem lexIf_total (h1 : ∀ a b, le1 a b = true ∨ le1 b a = true)
    (h2 : ∀ a b, le2 a b = true ∨ le2 b a = true) (x y : κ₁ × κ₂) :
    lexIf le1 le2 x y = true ∨ lexIf le1 le2 y x = true := by
  by_cases h : x.1 = y.1
  · simpa [lexIf, h] using h2 x.2 y.2
  · simpa [lexIf, h, Ne.symm h] using h1 x.1 y.1

theorem lexIf_trans (h1t : ∀ a b c, le1 a b = true → le1 b c = true → le1 a c = true)
    (h1a : ∀ a b, le1 a b = true → le1 b a = true → a = b)
    (h2t : ∀ a b c, le2 a b = true → le2 b c = true → le2 a c = true)
    {x y z : κ₁ × κ₂} (hxy : lexIf le1 le2 x y = true) (hyz : lexIf le1 le2 y z = true) :
    lexIf le1 le2 x z = true := by
  unfold lexIf at *
  by_cases e1 : x.1 = y.1 <;> by_cases e2 : y.1 = z.1
  · rw [if_pos e1] at hxy
    rw [if_pos e2] at hyz
    rw [if_pos (e1.trans e2)]
    exact h2t _ _ _ hxy hyz
  · rw [if_pos e1] at hxy
    rw [if_neg e2] at hyz
    rw [if_neg (fun h => e2 (e1 ▸ h)), e1]
    exact hyz
  · rw [if_neg e1] at hxy
    rw [if_pos e2] at hyz
    rw [if_neg (fun h => e1 (e2 ▸ h)), ← e2]
    exact hxy
  · rw [if_neg e1] at hxy
    rw [if_neg e2] at hyz
    have hxz : x.1 ≠ z.1 := by
      intro h
      exact e1 (h1a _ _ hxy (h ▸ hyz))
    rw [if_neg hxz]
    exact h1t _ _ _ hxy hyz

end LexIf

theorem rat_le_total (a b : ℚ) : decide (a ≤ b) = true ∨ decide (b ≤ a) = true := by
  simpa using le_total a b

theorem rat_le_trans (a b c : ℚ) (h1 : decide (a ≤ b) = true) (h2 : decide (b ≤ c) = true) :
    decide (a ≤ c) = true := by
  simp at *
  exact le_trans h1 h2

theorem rat_le_antisymm (a b : ℚ) (h1 : decide (a ≤ b) = true) (h2 : decide (b ≤ a) = true) :
    a = b := by
  simp at *
  exact le_antisymm h1 h2

theorem keyLe_refl (x : Option ℚ × Option ℚ) : keyLe x x = true :=
  lexIf_refl optLe_refl x

theorem keyLe_total (x y : Option ℚ × Option ℚ) : keyLe x y = true ∨ keyLe y x = true :=
  lexIf_total optLe_total optLe_total x y

theorem keyLe_trans {x y z : Option ℚ × Option ℚ} (h1 : keyLe x y = true)
    (h2 : keyLe y z = true) : keyLe x z = true :=
  @lexIf_trans (Option ℚ) (Option ℚ) _ optLe optLe
    (fun _ _ _ ha hb => optLe_trans ha hb) (fun _ _ ha hb => optLe_antisymm ha hb)
    (fun _ _ _ ha hb => optLe_trans ha hb) x y z h1 h2

theorem pairLe_refl (x : ℚ × ℚ) : pairLe x x = true :=
  lexIf_refl (fun k => by simp) x

theorem pairLe_total (x y : ℚ × ℚ) : pairLe x y = true ∨ pairLe y x = true :=
  lexIf_total rat_le_total rat_le_total x y

theorem pairLe_trans {x y z : ℚ × ℚ} (h1 : pairLe x y = true) (h2 : pairLe y z = true) :
    pairLe x z = true :=
  lexIf_trans rat_le_trans rat_le_antisymm rat_le_trans h1 h2

/-- On rows whose margin and price are both present, the comparison the code
sorts with agrees with the sentinel-key comparison of the claim. -/
theorem keyLe_eq_pairLe {budget alvo : ℚ} {a b : Row} {ma mb : ℚ} {pa pb : ℤ}
    (hma : margem a = some ma) (hmb : margem b = some mb)
    (hpa : a.preco_num = some pa) (hpb : b.preco_num = some pb) :
    (keyLe (sortKey budget alvo a) (sortKey budget alvo b) = true) ↔
      (pairLe (claimKey budget alvo a) (claimKey budget alvo b) = true) := by
  simp only [keyLe, pairLe, sortKey, claimKey, deltaMargem, deltaPreco, lexIf, hma, hmb, hpa,
    hpb, Option.map_some']
  simp only [Option.some.injEq]
  split <;> simp [optLe]

/-! ### Stability and congruence of the insertion sort -/

section SortLemmas

variable {α : Type} {κ : Type} [DecidableEq κ]

theorem orderedInsert_congr {r s : α → α → Prop} [DecidableRel r] [DecidableRel s]
    (x : α) (l : List α) (h : ∀ b ∈ l, (r x b ↔ s x b)) :
    l.orderedInsert r x = l.orderedInsert s x := by
  induction l with
  | nil => rfl
  | cons b bs ih =>
    have hb := h b (List.mem_cons_self _ _)
    by_cases hrb : r x b
    · rw [List.orderedInsert, if_pos hrb, List.orderedInsert, if_pos (hb.mp hrb)]
    · rw [List.orderedInsert, if_neg hrb, List.orderedInsert,
        if_neg (fun hs => hrb (hb.mpr hs)),
        ih (fun c hc => h c (List.mem_cons_of_mem _ hc))]

theorem insertionSort_congr {r s : α → α → Prop} [DecidableRel r] [DecidableRel s]
    (l : List α) (h : ∀ a ∈ l, ∀ b ∈ l, (r a b ↔ s a b)) :
    l.insertionSort r = l.insertionSort s := by
  induction l with
  | nil => rfl
  | cons x xs ih =>
    rw [List.insertionSort, List.insertionSort,
      ih (fun a ha b hb => h a (List.mem_cons_of_mem _ ha) b (List.mem_cons_of_mem _ hb))]
    apply orderedInsert_congr
    intro b hb
    exact h x (List.mem_cons_self _ _) b
      (List.mem_cons_of_mem _ ((List.mem_insertionSort s).mp hb))

/-- Inserting an element with key `k` prepends it to the key-`k` elements of
the list; inserting one with another key leaves them unchanged.  This is the
stability of `orderedInsert` under a key-based comparison. -/
theorem filter_orderedInsert {key : α → κ} {kle : κ → κ → Bool}
    (hrefl : ∀ k, kle k k = true) (x : α) (l : List α) (k : κ) :
    (l.orderedInsert (fun a b => kle (key a) (key b) = true) x).filter
        (fun a => decide (key a = k)) =
      if key x = k then x :: l.filter (fun a => decide (key a = k))
      else l.filter (fun a => decide (key a = k)) := by
  induction l with
  | nil => by_cases h : key x = k <;> simp [List.orderedInsert, h]
  | cons b bs ih =>
    by_cases hxb : kle (key x) (key b) = true
    · rw [List.orderedInsert, if_pos hxb]
      by_cases h : key x = k
      · rw [if_pos h, List.filter_cons, if_pos (by simpa using h)]
      · rw [if_neg h, List.filter_cons, if_neg (by simpa using h)]
    · rw [List.orderedInsert, if_neg hxb]
      by_cases hbk : key b = k
      · have hxk : key x ≠ k := by
          intro h
          exact hxb (h ▸ hbk ▸ hrefl k)
        rw [if_neg hxk, List.filter_cons, if_pos (by simpa using hbk), List.filter_cons,
          if_pos (by simpa using hbk), ih, if_neg hxk]
      · by_cases hxk : key x = k
        · rw [if_pos hxk, List.filter_cons, if_neg (by simpa using hbk), List.filter_cons,
            if_neg (by simpa using hbk), ih, if_pos hxk]
        · rw [if_neg hxk, List.filter_cons, if_neg (by simpa using hbk), List.filter_cons,
            if_neg (by simpa using hbk), ih, if_neg hxk]

/-- Stability of the insertion sort under a key-based comparison: the
elements of any one key keep their input order. -/
theorem filter_insertionSort {key : α → κ} {kle : κ → κ → Bool}
    (hrefl : ∀ k, kle k k = true) (l : List α) (k : κ) :
    (l.insertionSort (fun a b => kle (key a) (key b) = true)).filter
        (fun a => decide (key a = k)) =
      l.filter (fun a => decide (key a = k)) := by
  induction l with
  | nil => rfl
  | cons x xs ih =>
    rw [List.insertionSort, filter_orderedInsert hrefl, List.filter_cons]
    by_cases h : key x = k
    · rw [if_pos h, if_pos (by simpa using h), ih]
    · rw [if_neg h, if_neg (by simpa using h), ih]

end SortLemmas

/-! ### Facts about the filters -/

/-- A row passing the price predicate has a numeric price. -/
theorem pricePred_isSome {budget tol : ℚ} {r : Row} (h : pricePred budget tol r = true) :
    r.preco_num.isSome = true := by
  unfold pricePred at h
  cases hp : r.preco_num with
  | none => rw [hp] at h; exact absurd h (by simp)
  | some p => simp

/-- Membership in the price filter output: a numeric price inside the
truncated integer band. -/
theorem mem_priceStep {budget tol : ℚ} {ow : Bool} {rows : List Row} {r : Row} :
    r ∈ priceStep budget tol ow rows ↔
      r ∈ rows ∧ pricePred budget tol r = true := by
  unfold priceStep
  cases ow with
  | false => simp [List.mem_filter]
  | true =>
    simp only [if_pos, List.mem_filter]
    constructor
    · rintro ⟨⟨h1, -⟩, h3⟩
      exact ⟨h1, h3⟩
    · rintro ⟨h1, h3⟩
      exact ⟨⟨h1, pricePred_isSome h3⟩, h3⟩

/-- Membership in the margin filter output. -/
theorem mem_marginStep {alvo tolm : ℚ} {rows : List Row} {r : Row} :
    r ∈ marginStep alvo tolm rows ↔
      ((∃ s ∈ rows, margemBand alvo tolm s = true) ∧
        r ∈ rows ∧ margemBand alvo tolm r = true) ∨
      ((∀ s ∈ rows, margemBand alvo tolm s = false) ∧ r ∈ rows ∧ r.fipe.isSome = true) := by
  unfold marginStep
  by_cases he : (rows.filter (margemBand alvo tolm)).isEmpty = true
  · rw [if_pos he]
    have hall : ∀ s ∈ rows, margemBand alvo tolm s = false := by
      intro s hs
      by_contra hb
      have hb' : margemBand alvo tolm s = true := by
        cases h : margemBand alvo tolm s
        · exact absurd h hb
        · rfl
      have : s ∈ rows.filter (margemBand alvo tolm) := List.mem_filter.mpr ⟨hs, hb'⟩
      rw [List.isEmpty_iff.mp he] at this
      exact absurd this (List.not_mem_nil s)
    simp only [List.mem_filter]
    constructor
    · rintro ⟨h1, h2⟩
      exact Or.inr ⟨hall, h1, h2⟩
    · rintro (⟨⟨s, hs, hb⟩, -, -⟩ | ⟨-, h1, h2⟩)
      · rw [hall s hs] at hb
        exact absurd hb (by simp)
      · exact ⟨h1, h2⟩
  · rw [if_neg he]
    have hex : ∃ s ∈ rows, margemBand alvo tolm s = true := by
      rcases List.isEmpty_iff.not.mp he with h
      rcases List.exists_mem_of_ne_nil _ h with ⟨s, hs⟩
      have := List.mem_filter.mp hs
      exact ⟨s, this.1, this.2⟩
    simp only [List.mem_filter]
    constructor
    · rintro ⟨h1, h2⟩
      exact Or.inl ⟨hex, h1, h2⟩
    · rintro (⟨-, h1, h2⟩ | ⟨hall, h1, -⟩)
      · exact ⟨h1, h2⟩
      · rcases hex with ⟨s, hs, hb⟩
        rw [hall s hs] at hb
        exact absurd hb (by simp)

/-- A row passing the margin band predicate has a defined margin. -/
theorem margemBand_isSome {alvo tolm : ℚ} {r : Row} (h : margemBand alvo tolm r = true) :
    (margem r).isSome = true := by
  unfold margemBand at h
  cases hm : margem r with
  | none => rw [hm] at h; exact absurd h (by simp)
  | some m => simp

/-- Every survivor of the sorted pipeline's filter stage has both a defined
margin and a defined price: the margin filter keeps only in-band margins, and
its fallback keeps only rows with a fipe estimate, whose price the price
filter already guaranteed. -/
theorem df_sel_defined {budget alvo tolp tolm : ℚ} {ow : Bool} {rows : List Row} {r : Row}
    (h : r ∈ df_sel budget alvo tolp tolm ow rows) :
    (margem r).isSome = true ∧ r.preco_num.isSome = true := by
  unfold df_sel at h
  rcases mem_marginStep.mp h with ⟨-, hmem, hband⟩ | ⟨-, hmem, hfipe⟩
  · have hp := pricePred_isSome (mem_priceStep.mp hmem).2
    exact ⟨margemBand_isSome hband, hp⟩
  · have hp := pricePred_isSome (mem_priceStep.mp hmem).2
    constructor
    · unfold margem
      rcases Option.isSome_iff_exists.mp hfipe with ⟨f, hf⟩
      rcases Option.isSome_iff_exists.mp hp with ⟨p, hpp⟩
      rw [hf, hpp]
      simp
    · exact hp

/-! ### Claim C1: the margin filter and its fallback -/

/-- C1 counterexample: with target margin 5000 and tolerance 2000, an ad with
margin 6000 passes the margin filter, so the fallback does not trigger, and
the undefined-margin ad (it has no fipe estimate) is excluded from the
result — refuting "ads with an undefined margin are never excluded by this
filter". -/
theorem claim_C1_counterexample :
    margem (⟨Option.none, some 29000, Option.none, "b"⟩ : Row) = Option.none ∧
    marginStep 5000 2000
        [⟨Option.none, some 30000, some 36000, "a"⟩,
         ⟨Option.none, some 29000, Option.none, "b"⟩] =
      [⟨Option.none, some 30000, some 36000, "a"⟩] := by
  constructor
  · rfl
  · norm_num [marginStep, margemBand, margem, List.filter]

/-- C1 (amended): among price-band survivors the margin filter keeps exactly
the ads whose margin is defined and inside
`[target_margin - tol, target_margin + tol]`; ads with an undefined margin
are excluded by it; when no ad passes the band, the engine instead returns
exactly the ads with a defined reference value.  The result is a sublist of
its input (relative order preserved). -/
theorem claim_C1 (alvo tolm : ℚ) (rows : List Row) :
    (marginStep alvo tolm rows).Sublist rows ∧
    (∀ r, r ∈ marginStep alvo tolm rows ↔
      ((∃ s ∈ rows, margemBand alvo tolm s = true) ∧
        r ∈ rows ∧ margemBand alvo tolm r = true) ∨
      ((∀ s ∈ rows, margemBand alvo tolm s = false) ∧
        r ∈ rows ∧ r.fipe.isSome = true)) := by
  constructor
  · unfold marginStep
    by_cases he : (rows.filter (margemBand alvo tolm)).isEmpty = true
    · rw [if_pos he]
      exact List.filter_sublist rows
    · rw [if_neg he]
      exact List.filter_sublist rows
  · intro r
    exact mem_marginStep

/-- Witness for C1 at the counterexample's concrete input. -/
theorem claim_C1_witness :
    (marginStep 5000 2000
        [⟨Option.none, some 30000, some 36000, "a"⟩,
         ⟨Option.none, some 29000, Option.none, "b"⟩]).Sublist
      [⟨Option.none, some 30000, some 36000, "a"⟩,
       ⟨Option.none, some 29000, Option.none, "b"⟩] ∧
    (∀ r, r ∈ marginStep 5000 2000
        [⟨Option.none, some 30000, some 36000, "a"⟩,
         ⟨Option.none, some 29000, Option.none, "b"⟩] ↔
      ((∃ s ∈ [⟨Option.none, some 30000, some 36000, "a"⟩,
               (⟨Option.none, some 29000, Option.none, "b"⟩ : Row)],
          margemBand 5000 2000 s = true) ∧
        r ∈ [⟨Option.none, some 30000, some 36000, "a"⟩,
             (⟨Option.none, some 29000, Option.none, "b"⟩ : Row)] ∧
        margemBand 5000 2000 r = true) ∨
      ((∀ s ∈ [⟨Option.none, some 30000, some 36000, "a"⟩,
               (⟨Option.none, some 29000, Option.none, "b"⟩ : Row)],
          margemBand 5000 2000 s = false) ∧
        r ∈ [⟨Option.none, some 30000, some 36000, "a"⟩,
             (⟨Option.none, some 29000, Option.none, "b"⟩ : Row)] ∧
        r.fipe.isSome = true)) :=
  claim_C1 5000 2000
    [⟨Option.none, some 30000, some 36000, "a"⟩, ⟨Option.none, some 29000, Option.none, "b"⟩]

/-! ### Claim C4: the price filter -/

/-- `int()` truncation agrees with the floor on nonnegative rationals. -/
theorem pyTrunc_of_nonneg {q : ℚ} (h : 0 ≤ q) : pyTrunc q = ⌊q⌋ := by
  unfold pyTrunc
  rw [Rat.floor_def]
  exact Int.tdiv_eq_ediv (Rat.num_nonneg.mpr h) (Int.natCast_nonneg _)

/-- `int()` truncation is the identity on integers. -/
theorem pyTrunc_intCast (n : ℤ) : pyTrunc ((n : ℚ)) = n := by
  unfold pyTrunc
  rw [Rat.num_intCast, Rat.den_intCast]
  simp

/-- C4 counterexample: with target price 30000.5 and tolerance 3000 the code
band is `[int(27000.5), int(33000.5)] = [27000, 33000]`, so an ad priced
27000 is kept although its price lies strictly below the claimed lower
endpoint `max(0, target_price - price_tolerance) = 27000.5`. -/
theorem claim_C4_counterexample :
    priceStep (60001 / 2) 3000 true [⟨Option.none, some 27000, Option.none, "a"⟩] =
      [⟨Option.none, some 27000, Option.none, "a"⟩] ∧
    (((27000 : ℤ) : ℚ) < max 0 ((60001 : ℚ) / 2 - 3000)) := by
  have hmin : priceMin (60001 / 2) 3000 = 27000 := by
    unfold priceMin
    rw [show ((60001 : ℚ) / 2 - 3000) = 54001 / 2 by norm_num,
      pyTrunc_of_nonneg (by norm_num),
      show ⌊(54001 : ℚ) / 2⌋ = 27000 from Int.floor_eq_iff.mpr (by norm_num)]
    rfl
  have hmax : priceMax (60001 / 2) 3000 = 33000 := by
    unfold priceMax
    rw [show ((60001 : ℚ) / 2 + 3000) = 66001 / 2 by norm_num,
      pyTrunc_of_nonneg (by norm_num),
      show ⌊(66001 : ℚ) / 2⌋ = 33000 from Int.floor_eq_iff.mpr (by norm_num)]
  constructor
  · unfold priceStep
    simp [List.filter, pricePred, hmin, hmax]
  · have h : ((27000 : ℤ) : ℚ) < (60001 : ℚ) / 2 - 3000 := by norm_num
    exact lt_max_of_lt_right h

/-- C4 (amended): the price filter keeps exactly the ads having a numeric
price inside `[max(0, int(budget - tol)), int(budget + tol)]`, with `int()`
truncating toward zero; when the parameters are integers these endpoints are
exactly the claimed `max(0, target - tol)` and `target + tol`; and the
claim's concrete example holds: with target 30000 and tolerance 3000 the band
is `[27000, 33000]`, the `None`-price ad is dropped, the 28000/30000/33000
ads survive in order. -/
theorem claim_C4 (budget tol : ℚ) (ow : Bool) (rows : List Row) :
    (∀ r, r ∈ priceStep budget tol ow rows ↔
      (r ∈ rows ∧ ∃ p, r.preco_num = some p ∧
        priceMin budget tol ≤ p ∧ p ≤ priceMax budget tol)) ∧
    (∀ b t : ℤ, priceMin (b : ℚ) (t : ℚ) = max 0 (b - t) ∧
      priceMax (b : ℚ) (t : ℚ) = b + t) ∧
    priceStep 30000 3000 true
        [⟨Option.none, some 28000, Option.none, "a"⟩,
         ⟨Option.none, some 30000, Option.none, "b"⟩,
         ⟨Option.none, some 33000, Option.none, "c"⟩,
         ⟨Option.none, Option.none, Option.none, "d"⟩] =
      [⟨Option.none, some 28000, Option.none, "a"⟩,
       ⟨Option.none, some 30000, Option.none, "b"⟩,
       ⟨Option.none, some 33000, Option.none, "c"⟩] := by
  have hmin : priceMin 30000 3000 = 27000 := by
    unfold priceMin
    rw [show ((30000 : ℚ) - 3000) = ((27000 : ℤ) : ℚ) by norm_num, pyTrunc_intCast]
    rfl
  have hmax : priceMax 30000 3000 = 33000 := by
    unfold priceMax
    rw [show ((30000 : ℚ) + 3000) = ((33000 : ℤ) : ℚ) by norm_num, pyTrunc_intCast]
  refine ⟨?_, ?_, ?_⟩
  case refine_3 =>
    unfold priceStep
    simp [List.filter, pricePred, hmin, hmax]
  · intro r
    rw [mem_priceStep]
    unfold pricePred
    constructor
    · rintro ⟨h1, h2⟩
      refine ⟨h1, ?_⟩
      cases hp : r.preco_num with
      | none => rw [hp] at h2; exact absurd h2 (by simp)
      | some p =>
        rw [hp] at h2
        simp only [Bool.and_eq_true, decide_eq_true_eq] at h2
        exact ⟨p, rfl, h2.1, h2.2⟩
    · rintro ⟨h1, p, hp, hlo, hhi⟩
      refine ⟨h1, ?_⟩
      rw [hp]
      simp only [Bool.and_eq_true, decide_eq_true_eq]
      exact ⟨hlo, hhi⟩
  · intro b t
    constructor
    · unfold priceMin
      rw [show ((b : ℚ) - (t : ℚ)) = ((b - t : ℤ) : ℚ) by push_cast; ring, pyTrunc_intCast]
    · unfold priceMax
      rw [show ((b : ℚ) + (t : ℚ)) = ((b + t : ℤ) : ℚ) by push_cast; ring, pyTrunc_intCast]

/-- Witness for C4's characterization at the claim's own example. -/
theorem claim_C4_witness :
    ∀ r, r ∈ priceStep 30000 3000 true
        [⟨Option.none, some 28000, Option.none, "a"⟩,
         ⟨Option.none, some 30000, Option.none, "b"⟩,
         ⟨Option.none, some 33000, Option.none, "c"⟩,
         ⟨Option.none, Option.none, Option.none, "d"⟩] ↔
      (r ∈ [⟨Option.none, some 28000, Option.none, "a"⟩,
            ⟨Option.none, some 30000, Option.none, "b"⟩,
            ⟨Option.none, some 33000, Option.none, "c"⟩,
            (⟨Option.none, Option.none, Option.none, "d"⟩ : Row)] ∧
        ∃ p, r.preco_num = some p ∧
          priceMin 30000 3000 ≤ p ∧ p ≤ priceMax 30000 3000) :=
  (claim_C4 30000 3000 true
    [⟨Option.none, some 28000, Option.none, "a"⟩,
     ⟨Option.none, some 30000, Option.none, "b"⟩,
     ⟨Option.none, some 33000, Option.none, "c"⟩,
     ⟨Option.none, Option.none, Option.none, "d"⟩]).1

/-! ### Claim C3: the ranking order -/

/-- C3: the engine's output is the surviving ads (`df_sel`) stable-sorted
ascending by the claim's key — margin distance with sentinel `10^9` when the
margin is undefined, price distance as tie-breaker: (i) the code's sort
equals the sort by the sentinel key; (ii) the output is a permutation of the
survivors; (iii) it is sorted by the sentinel key; (iv) ads of equal key keep
their input order; and (v) on any list of ads whose defined margins are
within `10^9` of the target ("realistic"), sorting by the sentinel key places
every undefined-margin ad after every defined-margin ad. -/
theorem claim_C3 (budget alvo tolp tolm : ℚ) (ow : Bool) (rows l : List Row)
    (hb : ∀ r ∈ l, margemBound alvo r = true) :
    resultado budget alvo tolp tolm ow rows =
      (df_sel budget alvo tolp tolm ow rows).insertionSort
        (fun a b => pairLe (claimKey budget alvo a) (claimKey budget alvo b) = true) ∧
    (resultado budget alvo tolp tolm ow rows).Perm (df_sel budget alvo tolp tolm ow rows) ∧
    (resultado budget alvo tolp tolm ow rows).Sorted
      (fun a b => pairLe (claimKey budget alvo a) (claimKey budget alvo b) = true) ∧
    (∀ k, (resultado budget alvo tolp tolm ow rows).filter
        (fun r => decide (claimKey budget alvo r = k)) =
      (df_sel budget alvo tolp tolm ow rows).filter
        (fun r => decide (claimKey budget alvo r = k))) ∧
    List.Pairwise (fun a b => margem a = Option.none → margem b = Option.none)
      (l.insertionSort
        (fun a b => pairLe (claimKey budget alvo a) (claimKey budget alvo b) = true)) := by
  haveI : IsTotal Row
      (fun a b => pairLe (claimKey budget alvo a) (claimKey budget alvo b) = true) :=
    ⟨fun a b => pairLe_total _ _⟩
  haveI : IsTrans Row
      (fun a b => pairLe (claimKey budget alvo a) (claimKey budget alvo b) = true) :=
    ⟨fun a b c h1 h2 => pairLe_trans h1 h2⟩
  have hcong : resultado budget alvo tolp tolm ow rows =
      (df_sel budget alvo tolp tolm ow rows).insertionSort
        (fun a b => pairLe (claimKey budget alvo a) (claimKey budget alvo b) = true) := by
    unfold resultado sortStep
    apply insertionSort_congr
    intro a ha b hbm
    obtain ⟨hma, hpa⟩ := df_sel_defined ha
    obtain ⟨hmb, hpb⟩ := df_sel_defined hbm
    obtain ⟨ma, hma⟩ := Option.isSome_iff_exists.mp hma
    obtain ⟨mb, hmb⟩ := Option.isSome_iff_exists.mp hmb
    obtain ⟨pa, hpa⟩ := Option.isSome_iff_exists.mp hpa
    obtain ⟨pb, hpb⟩ := Option.isSome_iff_exists.mp hpb
    exact keyLe_eq_pairLe hma hmb hpa hpb
  refine ⟨hcong, ?_, ?_, ?_, ?_⟩
  · rw [hcong]
    exact List.perm_insertionSort _ _
  · rw [hcong]
    exact List.sorted_insertionSort _ _
  · intro k
    rw [hcong]
    exact @filter_insertionSort Row (ℚ × ℚ) _ (claimKey budget alvo) pairLe pairLe_refl _ k
  · have hs := List.sorted_insertionSort
      (fun a b => pairLe (claimKey budget alvo a) (claimKey budget alvo b) = true) l
    refine List.Pairwise.imp_of_mem ?_ hs
    intro a b ha hbm hrel hma
    by_contra hmb
    obtain ⟨m, hm⟩ := Option.ne_none_iff_exists'.mp hmb
    have hub := hb b ((List.mem_insertionSort _).mp hbm)
    rw [margemBound, hm] at hub
    simp only [Option.all_some, decide_eq_true_eq] at hub
    rw [pairLe, lexIf] at hrel
    simp only [claimKey, hma, hm] at hrel
    by_cases he : (10 ^ 9 : ℚ) = |m - alvo|
    · exact absurd he.symm (ne_of_lt hub)
    · rw [if_neg (by simpa using he)] at hrel
      simp only [decide_eq_true_eq] at hrel
      exact absurd hrel (not_le.mpr hub)

/-- Witness for C3 at a concrete input: empty pipeline input and a two-ad
list, one ad without a margin and one with margin 1 near the target 0. -/
theorem claim_C3_witness :
    (∀ r ∈ [(⟨Option.none, Option.none, Option.none, "u"⟩ : Row),
            ⟨Option.none, some 0, some 1, "d"⟩], margemBound 0 r = true) ∧
    (resultado 0 0 0 0 false [] =
      (df_sel 0 0 0 0 false []).insertionSort
        (fun a b => pairLe (claimKey 0 0 a) (claimKey 0 0 b) = true) ∧
    (resultado 0 0 0 0 false []).Perm (df_sel 0 0 0 0 false []) ∧
    (resultado 0 0 0 0 false []).Sorted
      (fun a b => pairLe (claimKey 0 0 a) (claimKey 0 0 b) = true) ∧
    (∀ k, (resultado 0 0 0 0 false []).filter (fun r => decide (claimKey 0 0 r = k)) =
      (df_sel 0 0 0 0 false []).filter (fun r => decide (claimKey 0 0 r = k))) ∧
    List.Pairwise (fun a b => margem a = Option.none → margem b = Option.none)
      ([(⟨Option.none, Option.none, Option.none, "u"⟩ : Row),
        ⟨Option.none, some 0, some 1, "d"⟩].insertionSort
        (fun a b => pairLe (claimKey 0 0 a) (claimKey 0 0 b) = true))) := by
  have hb : ∀ r ∈ [(⟨Option.none, Option.none, Option.none, "u"⟩ : Row),
      ⟨Option.none, some 0, some 1, "d"⟩], margemBound 0 r = true := by
    intro r hr
    rcases List.mem_cons.mp hr with h | hr
    · rw [h]; rfl
    rcases List.mem_cons.mp hr with h | hr
    · rw [h]
      norm_num [margemBound, margem, Option.all]
    · exact absurd hr (List.not_mem_nil r)
  exact ⟨hb, claim_C3 0 0 0 0 false []
    [⟨Option.none, Option.none, Option.none, "u"⟩, ⟨Option.none, some 0, some 1, "d"⟩] hb⟩

/-! ### The FIPE estimator (src/streamlit_app.py:409-495) -/

/-- A catalog brand as returned by the FIPE `marcas` endpoint: code and
name. -/
structure FBrand where
  codigo : String
  nome : String
deriving DecidableEq

/-- A catalog model as returned by the `modelos` endpoint. -/
structure FModel where
  codigo : String
  nome : String
deriving DecidableEq

/-- A catalog year variant as returned by the `anos` endpoint: the label
(`nome`) carries a four-digit year plus a fuel suffix. -/
structure FYear where
  codigo : String
  nome : String
deriving DecidableEq

/-- The catalog service behind the four cached lookups of lines 415-432:
each call returns parsed data or raises (`Except.error` — any transport or
HTTP error).  `price` yields `r.json().get('Valor')`, which may be absent. -/
structure Catalog where
  brands : Except Unit (List FBrand)
  models : String → Except Unit (List FModel)
  years : String → String → Except Unit (List FYear)
  price : String → String → String → Except Unit (Option String)

/-- A model of `difflib.get_close_matches` as the estimator calls it:
`close1` is the call with `n=1, cutoff=0.85` (at most one match), `close4`
the call with `n=4, cutoff=0.5` — up to four matches which difflib returns
in descending similarity order.  The similarity computation is Python
library code and is kept abstract. -/
structure Matcher where
  close1 : String → List String → Option String
  close4 : String → List String → List String

/-- Python `str.strip()`: drop whitespace from both ends. -/
def pyStrip (s : String) : String :=
  String.mk (((s.toList.dropWhile Char.isWhitespace).reverse.dropWhile
    Char.isWhitespace).reverse)

/-- Python `float()` on the plain decimal numerals that cleaned price texts
reduce to: digits with one optional decimal point and at least one digit
(the sign is handled by the caller; exponents and other exotic float syntax
do not occur in catalog price strings and are out of the modelled
fragment). -/
def pyFloatCore (l : List Char) : Option ℚ :=
  match l.dropWhile Char.isDigit with
  | [] => if (l.takeWhile Char.isDigit).isEmpty then Option.none
          else some ((natOfDigits (l.takeWhile Char.isDigit) : ℚ))
  | '.' :: fp =>
    if fp.all Char.isDigit && (!(l.takeWhile Char.isDigit).isEmpty || !fp.isEmpty) then
      some ((natOfDigits (l.takeWhile Char.isDigit) : ℚ) +
        (natOfDigits fp : ℚ) / (10 : ℚ) ^ fp.length)
    else Option.none
  | _ => Option.none

/-- Python `float()` including an optional leading sign. -/
def pyFloat (s : String) : Option ℚ :=
  match s.toList with
  | '+' :: rest => pyFloatCore rest
  | '-' :: rest => (pyFloatCore rest).map (fun q => -q)
  | l => pyFloatCore l

/-- `parse_money_br` (lines 434-438): `None` and the empty string give
`None` (`if not s`); otherwise strip `R$`, delete the thousands dots, turn
the decimal comma into a dot, strip whitespace and read a float, a failure
being caught as `None`. -/
def parse_money_br (s : Option String) : Option ℚ :=
  match s with
  | Option.none => Option.none
  | some s0 =>
    if s0 = "" then Option.none
    else pyFloat (pyStrip (pyReplace (pyReplace (pyReplace s0 "R$" "") "." "") "," "."))

/-- One-position match of the regex `(19|20)\d\d`: a four-digit year whose
first two digits are `19` or `20` (ASCII digits). -/
def matchYearAt : List Char → Option ℤ
  | c1 :: c2 :: c3 :: c4 :: _ =>
    if ((c1 = '1' ∧ c2 = '9') ∨ (c1 = '2' ∧ c2 = '0')) ∧ c3.isDigit ∧ c4.isDigit then
      some ((1000 * (c1.toNat - 48) + 100 * (c2.toNat - 48) + 10 * (c3.toNat - 48)
        + (c4.toNat - 48) : ℕ) : ℤ)
    else Option.none
  | _ => Option.none

/-- `re.search` for the year pattern: the leftmost match. -/
def scanYear : List Char → Option ℤ
  | [] => Option.none
  | c :: cs =>
    match matchYearAt (c :: cs) with
    | some v => some v
    | Option.none => scanYear cs

/-- `try_extract_year` (lines 440-442): `None` for falsy text, else the
first `(19|20)dd` match, as an integer. -/
def try_extract_year (s : String) : Option ℤ :=
  if s = "" then Option.none else scanYear s.toList

/-- The local `year_of` of lines 479-480: the same search applied to a
year-variant label. -/
def year_of (s : String) : Option ℤ :=
  scanYear s.toList

/-- The fixed alias table `COMMON_BRAND_ALIASES` of lines 410-413, in its
insertion (= iteration) order. -/
def COMMON_BRAND_ALIASES : List (String × String) :=
  [("vw", "Volkswagen"), ("gm", "Chevrolet"), ("chevy", "Chevrolet"),
   ("mercedes", "Mercedes-Benz"), ("merce", "Mercedes-Benz"), ("bmw", "BMW")]

/-- Python's substring test `needle in hay` on strings. -/
def strHasSub (hay needle : String) : Bool :=
  hasSub hay.toList needle.toList

/-- Python `str.capitalize()`: first character upper-cased, the rest
lower-cased. -/
def pyCapitalize (s : String) : String :=
  match s.toList with
  | [] => ""
  | c :: cs => String.mk (c.toUpper :: cs.map Char.toLower)

/-- `title_low.split()` followed by taking the first part, or `''` when
there is none (line 451). -/
def firstToken (s : String) : String :=
  String.mk ((s.toList.dropWhile Char.isWhitespace).takeWhile (fun c => !c.isWhitespace))

/-- Stage 1 of `find_brand_in_title` (lines 445-446): the first catalog
brand whose lower-cased name occurs in the lower-cased title as a literal
substring. -/
def brandSubstage (title_low : String) (brands : List FBrand) : Option FBrand :=
  brands.find? (fun b => strHasSub title_low (pyLower b.nome))

/-- Stage 2 (lines 447-450): the first alias of the fixed table occurring
space-delimited in the title, resolved to the brand carrying its canonical
name; an alias hit with no matching brand falls through to the next
alias. -/
def brandAliasStage (title_low : String) (brands : List FBrand) : Option FBrand :=
  COMMON_BRAND_ALIASES.findSome? (fun ap =>
    if strHasSub (" " ++ title_low ++ " ") (" " ++ ap.1 ++ " ") then
      brands.find? (fun b => pyLower b.nome = pyLower ap.2)
    else Option.none)

/-- Stage 3 (lines 451-456): `difflib` best match (n=1, cutoff 0.85) of the
capitalized first token against the brand names, mapped back to its
brand. -/
def brandFuzzyStage (M : Matcher) (title_low : String) (brands : List FBrand) :
    Option FBrand :=
  match M.close1 (pyCapitalize (firstToken title_low)) (brands.map (fun b => b.nome)) with
  | some g => brands.find? (fun b => b.nome = g)
  | Option.none => Option.none

/-- `find_brand_in_title` (lines 444-457): substring containment first, the
alias table second, first-token fuzzy matching last. -/
def find_brand_in_title (M : Matcher) (title_low : String) (brands : List FBrand) :
    Option FBrand :=
  match brandSubstage title_low brands with
  | some b => some b
  | Option.none =>
    match brandAliasStage title_low brands with
    | some b => some b
    | Option.none => brandFuzzyStage M title_low brands

/-- The absolute distance of a variant's label year from the requested year,
when the label yields one. -/
def variantDelta (yn : ℤ) (y : FYear) : Option ℤ :=
  (year_of y.nome).map (fun v => |v - yn|)

/-- The explicit best-delta loop of lines 481-486: scan the variants,
keeping the first strictly smaller distance; `best_delta` starts at
`10^9`. -/
def bestLoop (yn : ℤ) : List FYear → ℤ → Option String → Option String
  | [], _, yc => yc
  | y :: ys, best, yc =>
    match variantDelta yn y with
    | Option.none => bestLoop yn ys best yc
    | some d =>
      if d < best then bestLoop yn ys d (some y.codigo)
      else bestLoop yn ys best yc

/-- Year-variant selection (lines 477-489) for a non-empty variant list
`years` with head `y0`: with an extracted (truthy) year, run the best-delta
loop and fall back to the first variant's code when the loop chose nothing
or chose a falsy code (`if not year_choice`); without an extracted year,
take the first variant's code. -/
def yearChoice (year_num : Option ℤ) (y0 : FYear) (years : List FYear) : String :=
  match year_num with
  | some yn =>
    if yn ≠ 0 then
      match bestLoop yn years (10 ^ 9) Option.none with
      | some c => if c = "" then y0.codigo else c
      | Option.none => y0.codigo
    else y0.codigo
  | Option.none => y0.codigo

/-- The tail of a candidate attempt (lines 490-494): fetch the price text
for a resolved (brand, model, year) triple — a raise skips the candidate —
parse it, and accept it only when truthy (present and nonzero). -/
def fetchParsePrice (C : Catalog) (bc mc yc : String) : Option ℚ :=
  match C.price bc mc yc with
  | .error _ => Option.none
  | .ok ptxt =>
    match parse_money_br ptxt with
    | some p => if p ≠ 0 then some p else Option.none
    | Option.none => Option.none

/-- The attempt for one model candidate — the body of the loop of lines
471-494: resolve the candidate name to its model record, fetch the year
variants (a raise or an empty list skips the candidate), choose a year code,
fetch and parse the price; the final `if price:` truthiness test rejects a
price that is absent or parses to `0`. -/
def candidatePrice (C : Catalog) (brand : FBrand) (models : List FModel)
    (year_num : Option ℤ) (cand : String) : Option ℚ :=
  match models.find? (fun m => m.nome = cand) with
  | Option.none => Option.none
  | some mdl =>
    match C.years brand.codigo mdl.codigo with
    | .error _ => Option.none
    | .ok years =>
      match years with
      | [] => Option.none
      | y0 :: _ =>
        fetchParsePrice C brand.codigo mdl.codigo (yearChoice year_num y0 years)

/-- The candidate loop (lines 471-494): the first candidate yielding a
usable price wins; `None` when all candidates are exhausted. -/
def tryCandidates (C : Catalog) (brand : FBrand) (models : List FModel)
    (year_num : Option ℤ) : List String → Option ℚ
  | [] => Option.none
  | cand :: rest =>
    match candidatePrice C brand models year_num cand with
    | some p => some p
    | Option.none => tryCandidates C brand models year_num rest

/-- `estimate_fipe_from_title` (lines 459-495), exception-transparent: a
`.ok` value is what the Python function returns, a `.error` would be an
exception escaping it.  Empty titles return `None` up front; the brand list
and model list fetches are wrapped in `try/except` returning `None`; the
per-candidate fetches are wrapped in `try/except continue` inside
`tryCandidates`. -/
def estimate_fipe_from_title (C : Catalog) (M : Matcher) (title : String) :
    Except Unit (Option ℚ) :=
  if title = "" then .ok Option.none
  else
    match C.brands with
    | .error _ => .ok Option.none
    | .ok brands =>
      match find_brand_in_title M (pyLower title) brands with
      | Option.none => .ok Option.none
      | some brand =>
        match C.models brand.codigo with
        | .error _ => .ok Option.none
        | .ok models =>
          .ok (tryCandidates C brand models (try_extract_year title)
            (M.close4 title (models.map (fun m => m.nome))))

/-! ### Claim C5: the estimator absorbs failures -/

/-- C5: the estimator never lets an exception escape (its result is always
`.ok`), and it returns `None` when the title is empty, when the brand-list
fetch raises, and when the model-list fetch raises; the per-candidate
year-variant and price raises are absorbed inside the candidate loop, which
is part of the totality conjunct. -/
theorem claim_C5 (C : Catalog) (M : Matcher) (title : String) :
    (∃ r, estimate_fipe_from_title C M title = .ok r) ∧
    (title = "" → estimate_fipe_from_title C M title = .ok Option.none) ∧
    (∀ e, C.brands = .error e → estimate_fipe_from_title C M title = .ok Option.none) ∧
    (∀ brands brand e, C.brands = .ok brands →
      find_brand_in_title M (pyLower title) brands = some brand →
      C.models brand.codigo = .error e →
      estimate_fipe_from_title C M title = .ok Option.none) := by
  refine ⟨?_, ?_, ?_, ?_⟩
  · unfold estimate_fipe_from_title
    repeat' split
    all_goals exact ⟨_, rfl⟩
  · intro ht
    unfold estimate_fipe_from_title
    rw [if_pos ht]
  · intro e he
    unfold estimate_fipe_from_title
    by_cases ht : title = ""
    · rw [if_pos ht]
    · simp only [if_neg ht, he]
  · intro brands brand e hb hf hm
    unfold estimate_fipe_from_title
    by_cases ht : title = ""
    · rw [if_pos ht]
    · simp only [if_neg ht, hb, hf, hm]

/-- Witness for C5: a catalog whose every call raises and a matcher that
returns nothing; the model-fetch conjunct is discharged at a catalog whose
brand list succeeds. -/
theorem claim_C5_witness :
    estimate_fipe_from_title
        ⟨.error (), fun _ => .error (), fun _ _ => .error (), fun _ _ _ => .error ()⟩
        ⟨fun _ _ => Option.none, fun _ _ => []⟩ "gol 2014" = .ok Option.none ∧
    estimate_fipe_from_title
        ⟨.ok [⟨"23", "Fiat"⟩], fun _ => .error (), fun _ _ => .error (),
          fun _ _ _ => .error ()⟩
        ⟨fun _ _ => Option.none, fun _ _ => []⟩ "fiat uno 2014" = .ok Option.none :=
  ⟨(claim_C5 ⟨.error (), fun _ => .error (), fun _ _ => .error (), fun _ _ _ => .error ()⟩
      ⟨fun _ _ => Option.none, fun _ _ => []⟩ "gol 2014").2.2.1 () rfl,
   (claim_C5 ⟨.ok [⟨"23", "Fiat"⟩], fun _ => .error (), fun _ _ => .error (),
      fun _ _ _ => .error ()⟩
      ⟨fun _ _ => Option.none, fun _ _ => []⟩ "fiat uno 2014").2.2.2 [⟨"23", "Fiat"⟩]
      ⟨"23", "Fiat"⟩ () rfl rfl rfl⟩

/-! ### Claim C6: the candidate loop takes the first usable price -/

/-- The candidate loop equals "price of the first candidate whose attempt
succeeds". -/
theorem tryCandidates_eq (C : Catalog) (brand : FBrand) (models : List FModel)
    (yn : Option ℤ) (cands : List String) :
    tryCandidates C brand models yn cands =
      (cands.filterMap (candidatePrice C brand models yn)).head? := by
  induction cands with
  | nil => rfl
  | cons c rest ih =>
    rw [tryCandidates, List.filterMap_cons]
    cases hc : candidatePrice C brand models yn c with
    | some p => simp
    | none => simpa using ih

/-- C6: once the brand and its model list are resolved, the estimator
returns the price of the first candidate (in the order `difflib` produced:
descending similarity) whose attempt yields a usable price, skipping
candidates whose year-variant or price lookup fails or yields nothing, and
returns `None` exactly when every candidate is exhausted. -/
theorem claim_C6 (C : Catalog) (M : Matcher) (title : String) (brands : List FBrand)
    (brand : FBrand) (models : List FModel)
    (ht : title ≠ "") (hb : C.brands = .ok brands)
    (hf : find_brand_in_title M (pyLower title) brands = some brand)
    (hm : C.models brand.codigo = .ok models) :
    estimate_fipe_from_title C M title =
      .ok (((M.close4 title (models.map (fun m => m.nome))).filterMap
        (candidatePrice C brand models (try_extract_year title))).head?) ∧
    (estimate_fipe_from_title C M title = .ok Option.none ↔
      ∀ cand ∈ M.close4 title (models.map (fun m => m.nome)),
        candidatePrice C brand models (try_extract_year title) cand = Option.none) := by
  have h1 : estimate_fipe_from_title C M title =
      .ok (tryCandidates C brand models (try_extract_year title)
        (M.close4 title (models.map (fun m => m.nome)))) := by
    unfold estimate_fipe_from_title
    simp only [if_neg ht, hb, hf, hm]
  constructor
  · rw [h1, tryCandidates_eq]
  · rw [h1, tryCandidates_eq]
    constructor
    · intro h
      injection h with h
      rw [List.head?_eq_none_iff] at h
      exact List.filterMap_eq_nil_iff.mp h
    · intro h
      rw [List.filterMap_eq_nil_iff.mpr h]
      rfl

/-- Witness for C6: a one-brand, one-model catalog where every lookup
succeeds; the single candidate "Uno Mille" yields the price text
"R$ 10.000,00". -/
theorem claim_C6_witness :
    ("fiat uno 2014" ≠ "") ∧
    (Catalog.brands ⟨.ok [⟨"23", "Fiat"⟩], fun _ => .ok [⟨"m1", "Uno Mille"⟩],
        fun _ _ => .ok [⟨"y1", "2014 Gasolina"⟩], fun _ _ _ => .ok (some "R$ 10.000,00")⟩ =
      .ok [⟨"23", "Fiat"⟩]) ∧
    (find_brand_in_title ⟨fun _ _ => Option.none, fun _ _ => ["Uno Mille"]⟩
        (pyLower "fiat uno 2014") [⟨"23", "Fiat"⟩] = some ⟨"23", "Fiat"⟩) ∧
    (estimate_fipe_from_title
        ⟨.ok [⟨"23", "Fiat"⟩], fun _ => .ok [⟨"m1", "Uno Mille"⟩],
          fun _ _ => .ok [⟨"y1", "2014 Gasolina"⟩], fun _ _ _ => .ok (some "R$ 10.000,00")⟩
        ⟨fun _ _ => Option.none, fun _ _ => ["Uno Mille"]⟩ "fiat uno 2014" =
      .ok (((["Uno Mille"] : List String).filterMap
        (candidatePrice
          ⟨.ok [⟨"23", "Fiat"⟩], fun _ => .ok [⟨"m1", "Uno Mille"⟩],
            fun _ _ => .ok [⟨"y1", "2014 Gasolina"⟩], fun _ _ _ => .ok (some "R$ 10.000,00")⟩
          ⟨"23", "Fiat"⟩ [⟨"m1", "Uno Mille"⟩]
          (try_extract_year "fiat uno 2014"))).head?)) :=
  ⟨by decide, rfl, by decide,
   (claim_C6
     ⟨.ok [⟨"23", "Fiat"⟩], fun _ => .ok [⟨"m1", "Uno Mille"⟩],
       fun _ _ => .ok [⟨"y1", "2014 Gasolina"⟩], fun _ _ _ => .ok (some "R$ 10.000,00")⟩
     ⟨fun _ _ => Option.none, fun _ _ => ["Uno Mille"]⟩ "fiat uno 2014"
     [⟨"23", "Fiat"⟩] ⟨"23", "Fiat"⟩ [⟨"m1", "Uno Mille"⟩]
     (by decide) rfl (by decide) rfl).1⟩

/-! ### Claim C10: a zero price is not usable -/

/-- A fetched price is only returned when truthy, hence never `0`. -/
theorem fetchParsePrice_ne_zero {C : Catalog} {bc mc yc : String} {p : ℚ}
    (h : fetchParsePrice C bc mc yc = some p) : p ≠ 0 := by
  unfold fetchParsePrice at h
  repeat' split at h
  all_goals simp_all

/-- A successful candidate attempt never carries the price `0`: the final
truthiness test rejects it. -/
theorem candidatePrice_ne_zero {C : Catalog} {brand : FBrand} {models : List FModel}
    {yn : Option ℤ} {cand : String} {p : ℚ}
    (h : candidatePrice C brand models yn cand = some p) : p ≠ 0 := by
  unfold candidatePrice at h
  split at h
  · exact absurd h (by simp)
  · split at h
    · exact absurd h (by simp)
    · split at h
      · exact absurd h (by simp)
      · exact fetchParsePrice_ne_zero h

/-- The candidate loop never returns the price `0`. -/
theorem tryCandidates_ne_zero {C : Catalog} {brand : FBrand} {models : List FModel}
    {yn : Option ℤ} :
    ∀ (cands : List String) (v : ℚ),
      tryCandidates C brand models yn cands = some v → v ≠ 0 := by
  intro cands
  induction cands with
  | nil =>
    intro v h
    exact absurd h (by simp [tryCandidates])
  | cons c rest ih =>
    intro v h
    rw [tryCandidates] at h
    cases hc : candidatePrice C brand models yn c with
    | some p =>
      rw [hc] at h
      injection h with h
      subst h
      exact candidatePrice_ne_zero hc
    | none =>
      rw [hc] at h
      exact ih v h

/-- C10: the estimator never returns the estimate `0` — a catalog price that
parses to exactly `0` fails the `if price:` truthiness test and the
candidate is skipped — and when every price lookup succeeds but parses to
`0`, the estimator returns `None` although no catalog call failed. -/
theorem claim_C10 (C : Catalog) (M : Matcher) (title : String) :
    (∀ v, estimate_fipe_from_title C M title = .ok (some v) → v ≠ 0) ∧
    ((∀ bc mc yc, ∃ s, C.price bc mc yc = .ok s ∧ parse_money_br s = some 0) →
      estimate_fipe_from_title C M title = .ok Option.none) := by
  constructor
  · intro v hv
    unfold estimate_fipe_from_title at hv
    split at hv
    · exact absurd hv (by simp)
    · split at hv
      · exact absurd hv (by simp)
      · split at hv
        · exact absurd hv (by simp)
        · split at hv
          · exact absurd hv (by simp)
          · injection hv with hv
            exact tryCandidates_ne_zero _ v hv
  · intro hz
    have hfact : ∀ bc mc yc, fetchParsePrice C bc mc yc = Option.none := by
      intro bc mc yc
      obtain ⟨s, hs, hp0⟩ := hz bc mc yc
      unfold fetchParsePrice
      simp only [hs, hp0]
      simp
    have hcand : ∀ (brand : FBrand) (models : List FModel) (cand : String),
        candidatePrice C brand models (try_extract_year title) cand = Option.none := by
      intro brand models cand
      unfold candidatePrice
      split
      · rfl
      · split
        · rfl
        · split
          · rfl
          · exact hfact _ _ _
    have htry : ∀ (brand : FBrand) (models : List FModel) (cands : List String),
        tryCandidates C brand models (try_extract_year title) cands = Option.none := by
      intro brand models cands
      induction cands with
      | nil => rfl
      | cons c rest ih =>
        rw [tryCandidates, hcand brand models c]
        exact ih
    unfold estimate_fipe_from_title
    split
    · rfl
    · split
      · rfl
      · split
        · rfl
        · split
          · rfl
          · rw [htry]

/-- Witness for C10: a catalog whose every lookup succeeds but whose every
price text is `"0"`; the estimator returns no estimate. -/
theorem claim_C10_witness :
    (∀ bc mc yc : String, ∃ s,
      (Catalog.price ⟨.ok [⟨"23", "Fiat"⟩], fun _ => .ok [⟨"m1", "Uno"⟩],
          fun _ _ => .ok [⟨"y1", "2014 Gasolina"⟩], fun _ _ _ => .ok (some "0")⟩) bc mc yc =
        .ok s ∧ parse_money_br s = some 0) ∧
    estimate_fipe_from_title
        ⟨.ok [⟨"23", "Fiat"⟩], fun _ => .ok [⟨"m1", "Uno"⟩],
          fun _ _ => .ok [⟨"y1", "2014 Gasolina"⟩], fun _ _ _ => .ok (some "0")⟩
        ⟨fun _ _ => Option.none, fun _ _ => ["Uno"]⟩ "fiat uno 2014" = .ok Option.none :=
  ⟨fun _ _ _ => ⟨some "0", rfl, by decide⟩,
   (claim_C10
     ⟨.ok [⟨"23", "Fiat"⟩], fun _ => .ok [⟨"m1", "Uno"⟩],
       fun _ _ => .ok [⟨"y1", "2014 Gasolina"⟩], fun _ _ _ => .ok (some "0")⟩
     ⟨fun _ _ => Option.none, fun _ _ => ["Uno"]⟩ "fiat uno 2014").2
     (fun _ _ _ => ⟨some "0", rfl, by decide⟩)⟩

/-! ### Claim C8: brand resolution prefers literal containment -/

/-- C8: when the lower-cased title contains a catalog brand name as a
literal substring, `find_brand_in_title` returns a contained brand (the
match is accepted unconditionally, with no similarity cutoff applied); when
exactly one brand is contained, that exact brand is returned; and the
result then does not depend on the fuzzy matcher at all — the alias and
first-token-similarity stages are never consulted. -/
theorem claim_C8 (M : Matcher) (title : String) (brands : List FBrand) (b : FBrand)
    (hb : b ∈ brands) (hsub : strHasSub (pyLower title) (pyLower b.nome) = true) :
    (∃ b', find_brand_in_title M (pyLower title) brands = some b' ∧ b' ∈ brands ∧
      strHasSub (pyLower title) (pyLower b'.nome) = true) ∧
    ((∀ b'' ∈ brands, strHasSub (pyLower title) (pyLower b''.nome) = true → b'' = b) →
      find_brand_in_title M (pyLower title) brands = some b) ∧
    (∀ M' : Matcher, find_brand_in_title M' (pyLower title) brands =
      find_brand_in_title M (pyLower title) brands) := by
  have hst : ∃ b', brands.find? (fun x => strHasSub (pyLower title) (pyLower x.nome)) =
      some b' := by
    have h : (brands.find? (fun x => strHasSub (pyLower title) (pyLower x.nome))).isSome :=
      List.find?_isSome.mpr ⟨b, hb, hsub⟩
    exact Option.isSome_iff_exists.mp h
  obtain ⟨b', hfind⟩ := hst
  have hb' : brandSubstage (pyLower title) brands = some b' := hfind
  have hmem : b' ∈ brands := List.mem_of_find?_eq_some hfind
  have hpred : strHasSub (pyLower title) (pyLower b'.nome) = true := by
    simpa using List.find?_some hfind
  refine ⟨⟨b', ?_, hmem, hpred⟩, ?_, ?_⟩
  · unfold find_brand_in_title
    rw [hb']
  · intro huniq
    unfold find_brand_in_title
    rw [hb', huniq b' hmem hpred]
  · intro M'
    unfold find_brand_in_title
    rw [hb']

/-- Witness for C8: the catalog holds Fiat and Volkswagen and the free text
contains "Fiat"; the unique containment hypothesis also holds. -/
theorem claim_C8_witness :
    ((⟨"23", "Fiat"⟩ : FBrand) ∈ [(⟨"23", "Fiat"⟩ : FBrand), ⟨"59", "Volkswagen"⟩]) ∧
    strHasSub (pyLower "Vendo Fiat Uno 2014") (pyLower "Fiat") = true ∧
    ((∃ b', find_brand_in_title ⟨fun _ _ => Option.none, fun _ _ => []⟩
        (pyLower "Vendo Fiat Uno 2014") [⟨"23", "Fiat"⟩, ⟨"59", "Volkswagen"⟩] = some b' ∧
        b' ∈ [(⟨"23", "Fiat"⟩ : FBrand), ⟨"59", "Volkswagen"⟩] ∧
        strHasSub (pyLower "Vendo Fiat Uno 2014") (pyLower b'.nome) = true) ∧
    ((∀ b'' ∈ [(⟨"23", "Fiat"⟩ : FBrand), ⟨"59", "Volkswagen"⟩],
        strHasSub (pyLower "Vendo Fiat Uno 2014") (pyLower b''.nome) = true →
        b'' = ⟨"23", "Fiat"⟩) →
      find_brand_in_title ⟨fun _ _ => Option.none, fun _ _ => []⟩
        (pyLower "Vendo Fiat Uno 2014") [⟨"23", "Fiat"⟩, ⟨"59", "Volkswagen"⟩] =
        some ⟨"23", "Fiat"⟩) ∧
    (∀ M' : Matcher, find_brand_in_title M' (pyLower "Vendo Fiat Uno 2014")
        [⟨"23", "Fiat"⟩, ⟨"59", "Volkswagen"⟩] =
      find_brand_in_title ⟨fun _ _ => Option.none, fun _ _ => []⟩
        (pyLower "Vendo Fiat Uno 2014") [⟨"23", "Fiat"⟩, ⟨"59", "Volkswagen"⟩])) :=
  ⟨by decide, by decide,
   claim_C8 ⟨fun _ _ => Option.none, fun _ _ => []⟩ "Vendo Fiat Uno 2014"
     [⟨"23", "Fiat"⟩, ⟨"59", "Volkswagen"⟩] ⟨"23", "Fiat"⟩ (by decide) (by decide)⟩

/-! ### Claim C7: year-variant selection -/

/-- Modelled from the spec's words for C7: the smallest absolute difference
among the variants whose label yields a numeric year (`None` when no variant
does). -/
def minDelta (yn : ℤ) : List FYear → Option ℤ
  | [] => Option.none
  | y :: t =>
    match variantDelta yn y with
    | Option.none => minDelta yn t
    | some d =>
      match minDelta yn t with
      | Option.none => some d
      | some m => some (min d m)

/-- The minimum distance is attained by some variant. -/
theorem minDelta_mem {yn : ℤ} :
    ∀ {l : List FYear} {d : ℤ}, minDelta yn l = some d →
      ∃ y ∈ l, variantDelta yn y = some d := by
  intro l
  induction l with
  | nil =>
    intro d h
    exact absurd h (by simp [minDelta])
  | cons y t ih =>
    intro d h
    rw [minDelta] at h
    split at h
    next hv =>
      obtain ⟨y', hm, hd⟩ := ih h
      exact ⟨y', List.mem_cons_of_mem _ hm, hd⟩
    next dy hv =>
      split at h
      next hmt =>
        injection h with h
        exact ⟨y, List.mem_cons_self _ _, by rw [hv, h]⟩
      next mt hmt =>
        injection h with h
        by_cases hc : dy ≤ mt
        · refine ⟨y, List.mem_cons_self _ _, ?_⟩
          rw [hv, ← h, min_eq_left hc]
        · obtain ⟨y', hm, hd⟩ := ih hmt
          refine ⟨y', List.mem_cons_of_mem _ hm, ?_⟩
          rw [hd, ← h, min_eq_right (le_of_lt (not_le.mp hc))]

/-- An ASCII digit's code point lies between 48 and 57. -/
theorem isDigit_toNat_bounds {c : Char} (h : c.isDigit = true) :
    48 ≤ c.toNat ∧ c.toNat ≤ 57 := by
  simp only [Char.isDigit, Bool.and_eq_true, decide_eq_true_eq] at h
  exact h

/-- A matched year lies between 1900 and 2099. -/
theorem matchYearAt_range : ∀ {l : List Char} {v : ℤ}, matchYearAt l = some v →
    1900 ≤ v ∧ v ≤ 2099 := by
  intro l v h
  match l with
  | [] => exact absurd h (by simp [matchYearAt])
  | [_] => exact absurd h (by simp [matchYearAt])
  | [_, _] => exact absurd h (by simp [matchYearAt])
  | [_, _, _] => exact absurd h (by simp [matchYearAt])
  | c1 :: c2 :: c3 :: c4 :: rest =>
    rw [matchYearAt] at h
    split at h
    · rename_i hc
      obtain ⟨h12, h3, h4⟩ := hc
      injection h with h
      subst h
      obtain ⟨l3, r3⟩ := isDigit_toNat_bounds h3
      obtain ⟨l4, r4⟩ := isDigit_toNat_bounds h4
      rcases h12 with ⟨e1, e2⟩ | ⟨e1, e2⟩ <;> subst e1 <;> subst e2 <;>
        · have t1 : ('1' : Char).toNat = 49 := rfl
          have t2 : ('9' : Char).toNat = 57 := rfl
          have t3 : ('2' : Char).toNat = 50 := rfl
          have t4 : ('0' : Char).toNat = 48 := rfl
          constructor <;> omega
    · exact absurd h (by simp)

/-- A scanned year lies between 1900 and 2099. -/
theorem scanYear_range : ∀ {l : List Char} {v : ℤ}, scanYear l = some v →
    1900 ≤ v ∧ v ≤ 2099 := by
  intro l
  induction l with
  | nil =>
    intro v h
    exact absurd h (by simp [scanYear])
  | cons c cs ih =>
    intro v h
    rw [scanYear] at h
    split at h
    next w hm =>
      injection h with h
      subst h
      exact matchYearAt_range hm
    next hm => exact ih h

/-- An extracted year lies between 1900 and 2099 — in particular it is
truthy. -/
theorem try_extract_year_range {s : String} {v : ℤ} (h : try_extract_year s = some v) :
    1900 ≤ v ∧ v ≤ 2099 := by
  unfold try_extract_year at h
  split at h
  · exact absurd h (by simp)
  · exact scanYear_range h

/-- What the best-delta loop computes, for any initial accumulator: nothing
changes when no variant beats the running best; otherwise the first variant
attaining the minimum distance is selected. -/
theorem bestLoop_spec (yn : ℤ) :
    ∀ (l : List FYear) (best : ℤ) (yc : Option String),
      (minDelta yn l = Option.none → bestLoop yn l best yc = yc) ∧
      (∀ d, minDelta yn l = some d →
        ((best ≤ d → bestLoop yn l best yc = yc) ∧
         (d < best →
           ∃ y, l.find? (fun z => decide (variantDelta yn z = some d)) = some y ∧
             bestLoop yn l best yc = some y.codigo))) := by
  intro l
  induction l with
  | nil =>
    intro best yc
    constructor
    · intro _
      rfl
    · intro d hd
      exact absurd hd (by simp [minDelta])
  | cons y t ih =>
    intro best yc
    cases hv : variantDelta yn y with
    | none =>
      constructor
      · intro hnone
        have hmt : minDelta yn t = Option.none := by
          rw [minDelta, hv] at hnone
          exact hnone
        simp only [bestLoop, hv]
        exact (ih best yc).1 hmt
      · intro d hd
        have hd' : minDelta yn t = some d := by
          rw [minDelta, hv] at hd
          exact hd
        constructor
        · intro hbd
          simp only [bestLoop, hv]
          exact ((ih best yc).2 d hd').1 hbd
        · intro hdb
          obtain ⟨y', hf, hbl⟩ := ((ih best yc).2 d hd').2 hdb
          refine ⟨y', ?_, ?_⟩
          · rw [List.find?_cons_of_neg _ (by simp [hv])]
            exact hf
          · simp only [bestLoop, hv]
            exact hbl
    | some dy =>
      constructor
      · intro hnone
        exfalso
        simp only [minDelta, hv] at hnone
        split at hnone
        · exact absurd hnone (by simp)
        · exact absurd hnone (by simp)
      · intro d hd
        simp only [minDelta, hv] at hd
        split at hd
        next hmt =>
          injection hd with hd
          subst hd
          constructor
          · intro hbd
            simp only [bestLoop, hv]
            rw [if_neg (not_lt.mpr hbd)]
            exact (ih best yc).1 hmt
          · intro hdb
            refine ⟨y, ?_, ?_⟩
            · exact List.find?_cons_of_pos _ (by simp [hv])
            · simp only [bestLoop, hv]
              rw [if_pos hdb]
              exact (ih dy (some y.codigo)).1 hmt
        next mt hmt =>
          injection hd with hd
          by_cases hc : dy ≤ mt
          · have hdd : dy = d := by
              rw [← hd, min_eq_left hc]
            subst hdd
            constructor
            · intro hbd
              simp only [bestLoop, hv]
              rw [if_neg (not_lt.mpr hbd)]
              exact ((ih best yc).2 mt hmt).1 (le_trans hbd hc)
            · intro hdb
              refine ⟨y, ?_, ?_⟩
              · exact List.find?_cons_of_pos _ (by simp [hv])
              · simp only [bestLoop, hv]
                rw [if_pos hdb]
                exact ((ih dy (some y.codigo)).2 mt hmt).1 hc
          · have hmtdy : mt < dy := not_le.mp hc
            have hdd : mt = d := by
              rw [← hd, min_eq_right (le_of_lt hmtdy)]
            subst hdd
            have hpy : (fun z => decide (variantDelta yn z = some mt)) y = false := by
              simp only [hv, decide_eq_false_iff_not]
              intro hcon
              injection hcon with hcon
              omega
            constructor
            · intro hbd
              simp only [bestLoop, hv]
              rw [if_neg (not_lt.mpr (le_trans hbd (le_of_lt hmtdy)))]
              exact ((ih best yc).2 mt hmt).1 hbd
            · intro hdb
              by_cases hdyb : dy < best
              · obtain ⟨y', hf, hbl⟩ := ((ih dy (some y.codigo)).2 mt hmt).2 hmtdy
                refine ⟨y', ?_, ?_⟩
                · rw [List.find?_cons_of_neg _ (by simpa using hpy)]
                  exact hf
                · simp only [bestLoop, hv]
                  rw [if_pos hdyb]
                  exact hbl
              · obtain ⟨y', hf, hbl⟩ := ((ih best yc).2 mt hmt).2 hdb
                refine ⟨y', ?_, ?_⟩
                · rw [List.find?_cons_of_neg _ (by simpa using hpy)]
                  exact hf
                · simp only [bestLoop, hv]
                  rw [if_neg hdyb]
                  exact hbl

/-- C7: with a year extracted from the year text, the selection returns the
code of the first variant whose label year attains the smallest absolute
difference from it (ties broken by catalog order); when no variant label
yields a numeric year, or when no year can be extracted, the first variant
in catalog order is chosen.  Variant codes are assumed non-empty, as catalog
codes are (`if not year_choice` would otherwise divert to the first
variant). -/
theorem claim_C7 (year_text : String) (yn : ℤ) (y0 : FYear) (ys : List FYear)
    (hy : try_extract_year year_text = some yn)
    (hcode : ∀ y ∈ y0 :: ys, y.codigo ≠ "") :
    (∀ d, minDelta yn (y0 :: ys) = some d →
      ∃ y, (y0 :: ys).find? (fun z => decide (variantDelta yn z = some d)) = some y ∧
        yearChoice (some yn) y0 (y0 :: ys) = y.codigo) ∧
    (minDelta yn (y0 :: ys) = Option.none → yearChoice (some yn) y0 (y0 :: ys) = y0.codigo) ∧
    (∀ t : String, try_extract_year t = Option.none →
      yearChoice (try_extract_year t) y0 (y0 :: ys) = y0.codigo) := by
  obtain ⟨hy1, hy2⟩ := try_extract_year_range hy
  have hyn0 : yn ≠ 0 := by omega
  refine ⟨?_, ?_, ?_⟩
  · intro d hd
    have hdlt : d < 10 ^ 9 := by
      obtain ⟨y, hymem, hyd⟩ := minDelta_mem hd
      unfold variantDelta at hyd
      cases hv : year_of y.nome with
      | none =>
        rw [hv] at hyd
        exact absurd hyd (by simp)
      | some v =>
        rw [hv] at hyd
        simp only [Option.map_some'] at hyd
        injection hyd with hyd
        obtain ⟨hv1, hv2⟩ := scanYear_range hv
        have habs : |v - yn| ≤ 199 := by
          rw [abs_le]
          omega
        have h9 : (199 : ℤ) < 10 ^ 9 := by norm_num
        omega
    obtain ⟨y, hf, hbl⟩ := ((bestLoop_spec yn (y0 :: ys) (10 ^ 9) Option.none).2 d hd).2 hdlt
    refine ⟨y, hf, ?_⟩
    have h0 : yearChoice (some yn) y0 (y0 :: ys) =
        if yn ≠ 0 then
          (match bestLoop yn (y0 :: ys) (10 ^ 9) Option.none with
           | some c => if c = "" then y0.codigo else c
           | Option.none => y0.codigo)
        else y0.codigo := rfl
    rw [h0, if_pos hyn0, hbl]
    show (if y.codigo = "" then y0.codigo else y.codigo) = y.codigo
    rw [if_neg (hcode y (List.mem_of_find?_eq_some hf))]
  · intro hnone
    have hbl := (bestLoop_spec yn (y0 :: ys) (10 ^ 9) Option.none).1 hnone
    have h0 : yearChoice (some yn) y0 (y0 :: ys) =
        if yn ≠ 0 then
          (match bestLoop yn (y0 :: ys) (10 ^ 9) Option.none with
           | some c => if c = "" then y0.codigo else c
           | Option.none => y0.codigo)
        else y0.codigo := rfl
    rw [h0, if_pos hyn0, hbl]
  · intro t ht
    rw [ht]
    rfl

/-- Witness for C7 at the claim's own example: variant years 2012, 2014 and
2016 with requested year 2015 select the 2014 variant. -/
theorem claim_C7_witness :
    (try_extract_year "gol 2015" = some 2015) ∧
    (∀ y ∈ [(⟨"2012-1", "2012 Gasolina"⟩ : FYear), ⟨"2014-1", "2014 Gasolina"⟩,
        ⟨"2016-1", "2016 Gasolina"⟩], y.codigo ≠ "") ∧
    ((∀ d, minDelta 2015 [(⟨"2012-1", "2012 Gasolina"⟩ : FYear), ⟨"2014-1", "2014 Gasolina"⟩,
        ⟨"2016-1", "2016 Gasolina"⟩] = some d →
      ∃ y, [(⟨"2012-1", "2012 Gasolina"⟩ : FYear), ⟨"2014-1", "2014 Gasolina"⟩,
          ⟨"2016-1", "2016 Gasolina"⟩].find?
          (fun z => decide (variantDelta 2015 z = some d)) = some y ∧
        yearChoice (some 2015) ⟨"2012-1", "2012 Gasolina"⟩
          [⟨"2012-1", "2012 Gasolina"⟩, ⟨"2014-1", "2014 Gasolina"⟩,
           ⟨"2016-1", "2016 Gasolina"⟩] = y.codigo) ∧
    (minDelta 2015 [(⟨"2012-1", "2012 Gasolina"⟩ : FYear), ⟨"2014-1", "2014 Gasolina"⟩,
        ⟨"2016-1", "2016 Gasolina"⟩] = Option.none →
      yearChoice (some 2015) ⟨"2012-1", "2012 Gasolina"⟩
        [⟨"2012-1", "2012 Gasolina"⟩, ⟨"2014-1", "2014 Gasolina"⟩,
         ⟨"2016-1", "2016 Gasolina"⟩] = "2012-1") ∧
    (∀ t : String, try_extract_year t = Option.none →
      yearChoice (try_extract_year t) ⟨"2012-1", "2012 Gasolina"⟩
        [⟨"2012-1", "2012 Gasolina"⟩, ⟨"2014-1", "2014 Gasolina"⟩,
         ⟨"2016-1", "2016 Gasolina"⟩] = "2012-1")) ∧
    yearChoice (some 2015) ⟨"2012-1", "2012 Gasolina"⟩
      [⟨"2012-1", "2012 Gasolina"⟩, ⟨"2014-1", "2014 Gasolina"⟩,
       ⟨"2016-1", "2016 Gasolina"⟩] = "2014-1" :=
  ⟨by decide, by decide,
   claim_C7 "gol 2015" 2015 ⟨"2012-1", "2012 Gasolina"⟩
     [⟨"2014-1", "2014 Gasolina"⟩, ⟨"2016-1", "2016 Gasolina"⟩] (by decide) (by decide),
   by decide⟩

end FipeOLX
